import Mathlib

/-!
Shallow embedding of sgaunet/ratelimit (ratelimit.go).

The limiter's mutable state is the buffered channel `ch` (capacity `limit`,
its fill level modelled as `chLen`), the one-shot `done` channel (modelled as
the flag `doneClosed`, set when `close(r.done)` runs after the derived
context is cancelled), the ticker pointer `t` (modelled as
`Option Ticker`, `none` standing for the Go `nil`), and the `lastCall`
timestamp.  Durations and timestamps are integers (nanoseconds, as in Go's
`time.Duration`).  Channel operations are atomic, so concurrent executions
serialize into sequences of the atomic steps modelled here; the
nondeterminism of Go's `select` (a uniformly random choice among the ready
cases, with `default` taken only when no case is ready) is modelled by
inductive step relations.
-/

namespace Ratelimit

/-- `waitSleepDuration = 10 * time.Millisecond` in nanoseconds. -/
def waitSleepDuration : Int := 10 * 1000000

/-- `stopSleepDuration = 100 * time.Millisecond` in nanoseconds. -/
def stopSleepDuration : Int := 100 * 1000000

/-- The single error value of the package: `ErrInvalidParams`. -/
inductive RLError where
  | invalidParams
deriving DecidableEq, Repr

/-- `var ErrInvalidParams = errors.New("ratelimit: duration or limit cannot be <= 0")`. -/
def ErrInvalidParams : RLError := .invalidParams

/-- A `time.Ticker`: its period (the argument of `time.NewTicker`) and
whether it is still running (`Stop` clears the flag). -/
structure Ticker where
  period : Int
  running : Bool
deriving DecidableEq, Repr

/-- The `RateLimit` struct.  `chLen` is `len(r.ch)` (the channel has
capacity `limit`); `doneClosed` records whether `close(r.done)` has run;
`t` is the ticker pointer (`none` = Go `nil`, the initial value before the
background routine calls `setTicker`). -/
structure RateLimit where
  d : Int
  limit : Int
  chLen : Nat
  doneClosed : Bool
  t : Option Ticker
  lastCall : Int
deriving DecidableEq, Repr

/-- A Go runtime fault; `nilDeref` models the panic of calling a method on
a `nil` `*time.Ticker`. -/
inductive GoFault where
  | nilDeref
deriving DecidableEq, Repr

/-- `func New(ctx, d, limit)`: returns `ErrInvalidParams` when
`limit <= 0 || d <= 0`, otherwise an initialized limiter whose channel is
empty, whose `done` channel is open, and whose ticker pointer is still
`nil` (the background routine sets it asynchronously). -/
def New (d : Int) (limit : Int) (now : Int) : Except RLError RateLimit :=
  if limit ≤ 0 ∨ d ≤ 0 then .error ErrInvalidParams
  else .ok { d := d, limit := limit, chLen := 0, doneClosed := false,
             t := none, lastCall := now }

/-- `setLastCall`: writes the timestamp under the mutex. -/
def setLastCall (r : RateLimit) (t : Int) : RateLimit :=
  { r with lastCall := t }

/-- `func (r *RateLimit) IsLimitReached() bool`, one atomic call at time
`now`: records `lastCall`; the first `select` returns `false` when `done`
is closed (a receive on a closed channel is always ready, so with only a
`default` alternative that case is taken deterministically); otherwise the
second `select` tries a non-blocking send on `ch`, which succeeds exactly
when the buffer is not full. -/
def IsLimitReached (r : RateLimit) (now : Int) : Bool × RateLimit :=
  let r := setLastCall r now
  if r.doneClosed then (false, r)
  else if (r.chLen : Int) < r.limit then (false, { r with chLen := r.chLen + 1 })
  else (true, r)

/-- `GetLastCall`: reads the timestamp under the read lock. -/
def GetLastCall (r : RateLimit) : Int := r.lastCall

/-- How one iteration of the `for`/`select` loop of `WaitIfLimitReached`
ends. -/
inductive WaitOutcome where
  | returnedDone
  | acquired
  | slept
deriving DecidableEq, Repr

/-- One iteration of the `select` in `WaitIfLimitReached`: the
`<-r.done` case is ready iff `done` is closed, the `r.ch <- struct{}{}`
case is ready iff the buffer is not full, and the `default` branch
(sleep `waitSleepDuration` and retry) runs only when neither case is
ready.  When both cases are ready Go chooses between them at random, so
both constructors apply. -/
inductive WaitSelect (r : RateLimit) : WaitOutcome → RateLimit → Prop where
  | done (h : r.doneClosed = true) : WaitSelect r .returnedDone r
  | send (h : (r.chLen : Int) < r.limit) :
      WaitSelect r .acquired { r with chLen := r.chLen + 1 }
  | sleep (h1 : r.doneClosed = false) (h2 : ¬ (r.chLen : Int) < r.limit) :
      WaitSelect r .slept r

/-- A complete run of the `for` loop of `WaitIfLimitReached` (after the
initial `setLastCall`): finitely many sleeping iterations followed by a
returning iteration. -/
inductive WaitRun : RateLimit → WaitOutcome → RateLimit → Prop where
  | ret {r o r'} (h : WaitSelect r o r') (ho : o ≠ .slept) : WaitRun r o r'
  | step {r o r'} (h : WaitSelect r .slept r) (rest : WaitRun r o r') :
      WaitRun r o r'

/-- `func (r *RateLimit) emptyChan()`: returns immediately when `done` is
closed (first `select`); otherwise reads `length := len(r.ch)` and
receives that many elements, leaving the buffer empty (`ch` is never
closed, so the `!ok` break never fires). -/
def emptyChan (r : RateLimit) : RateLimit :=
  if r.doneClosed then r
  else { r with chLen := 0 }

/-- The initialization of the background routine's goroutine:
`ticker := time.NewTicker(r.d); r.setTicker(ticker)`. -/
def backgroundInit (r : RateLimit) : RateLimit :=
  { r with t := some { period := r.d, running := true } }

/-- One `<-ticker.C` iteration of the background routine's loop:
`r.emptyChan()`. -/
def backgroundTick (r : RateLimit) : RateLimit :=
  emptyChan r

/-- The ticker-stopping statement shared by `Stop` and `handleCtx`:
`if r.t != nil { r.t.Stop() }` under the mutex.  Calling `Stop` on a `nil`
`*time.Ticker` would be a nil dereference; the guard makes the call safe. -/
def tickerStopCall : Option Ticker → Except GoFault (Option Ticker)
  | none => .error .nilDeref
  | some tk => .ok (some { tk with running := false })

/-- `func (r *RateLimit) Stop()`: stops the ticker if non-nil, calls
`emptyChan`, then sleeps `stopSleepDuration`.  It does not invoke
`r.cancelFunc` and does not close `r.done`. -/
def Stop (r : RateLimit) : Except GoFault RateLimit :=
  if r.t.isSome then do
    let t' ← tickerStopCall r.t
    pure (emptyChan { r with t := t' })
  else
    pure (emptyChan r)

/-- `close(r.done)`: the goroutine started in `New` runs it once the
derived context is cancelled. -/
def closeDone (r : RateLimit) : RateLimit :=
  { r with doneClosed := true }

/-- The ticker-stopping step of `handleCtx` (same guarded statement as in
`Stop`, known not to fault by the guard). -/
def handleStopTicker (r : RateLimit) : RateLimit :=
  match r.t with
  | some tk => { r with t := some { tk with running := false } }
  | none => r

/-- The body of `handleCtx`'s goroutine after `<-ctx.Done()` fires: stop
the ticker if non-nil, then `emptyChan`. -/
def handleCtxDrain (r : RateLimit) : RateLimit :=
  emptyChan (handleStopTicker r)

/-- The possible serializations of the two goroutines released by
cancelling the derived context: the `New` goroutine performs
`close(r.done)` (one atomic step) and the `handleCtx` goroutine performs
stop-ticker then `emptyChan` (two steps); the three interleavings. -/
inductive CancelRun : RateLimit → RateLimit → Prop where
  | doneFirst (r : RateLimit) : CancelRun r (handleCtxDrain (closeDone r))
  | doneBetween (r : RateLimit) :
      CancelRun r (emptyChan (closeDone (handleStopTicker r)))
  | doneLast (r : RateLimit) : CancelRun r (closeDone (handleCtxDrain r))

/-- Channel-occupancy invariant: `len(ch) ≤ cap(ch) = limit` (the lower
bound `0 ≤ chLen` is by the type). -/
def Inv (r : RateLimit) : Prop := (r.chLen : Int) ≤ r.limit

instance (r : RateLimit) : Decidable (Inv r) := by
  unfold Inv; infer_instance

/-- Iterate `IsLimitReached` `n` times from state `r`; returns
`(admitted, denied, final state)` where `admitted` counts calls that
returned `false` and `denied` those that returned `true`. -/
def runChecks (now : Int) : Nat → RateLimit → Nat × Nat × RateLimit
  | 0, r => (0, 0, r)
  | n + 1, r =>
      let res := IsLimitReached r now
      let rest := runChecks now n res.2
      if res.1 then (rest.1, rest.2.1 + 1, rest.2.2)
      else (rest.1 + 1, rest.2.1, rest.2.2)

/-- The state after `n` successive `IsLimitReached` calls. -/
def stateAfter (now : Int) (r : RateLimit) (n : Nat) : RateLimit :=
  (runChecks now n r).2.2

/-! Helper lemmas. -/

theorem New_ok_fields {d c t0 : Int} {r : RateLimit} (h : New d c t0 = .ok r) :
    r.d = d ∧ r.limit = c ∧ r.chLen = 0 ∧ r.doneClosed = false ∧
    r.t = none ∧ 0 < c ∧ 0 < d := by
  unfold New at h
  split at h
  · exact absurd h (by simp)
  · rename_i hv
    push_neg at hv
    cases h
    refine ⟨rfl, rfl, rfl, rfl, rfl, ?_, ?_⟩ <;> omega

theorem IsLimitReached_fields (r : RateLimit) (now : Int) :
    (IsLimitReached r now).2.limit = r.limit ∧
    (IsLimitReached r now).2.d = r.d ∧
    (IsLimitReached r now).2.doneClosed = r.doneClosed ∧
    (IsLimitReached r now).2.t = r.t := by
  unfold IsLimitReached setLastCall
  dsimp only
  split <;> [skip; split] <;> simp

theorem IsLimitReached_chLen (r : RateLimit) (now : Int) :
    (r.doneClosed = true → (IsLimitReached r now).2.chLen = r.chLen ∧
      (IsLimitReached r now).1 = false) ∧
    (r.doneClosed = false → (r.chLen : Int) < r.limit →
      (IsLimitReached r now).2.chLen = r.chLen + 1 ∧
      (IsLimitReached r now).1 = false) ∧
    (r.doneClosed = false → ¬ (r.chLen : Int) < r.limit →
      (IsLimitReached r now).2.chLen = r.chLen ∧
      (IsLimitReached r now).1 = true) := by
  unfold IsLimitReached setLastCall
  dsimp only
  refine ⟨fun h => ?_, fun h hlt => ?_, fun h hlt => ?_⟩
  · simp [h]
  · simp [h, hlt]
  · simp [h, hlt]

theorem runChecks_state_succ (now : Int) (n : Nat) (r : RateLimit) :
    (runChecks now (n + 1) r).2.2 = (runChecks now n (IsLimitReached r now).2).2.2 := by
  conv_lhs => rw [runChecks]
  split <;> rfl

theorem stateAfter_succ (now : Int) (r : RateLimit) (n : Nat) :
    stateAfter now r (n + 1) = (IsLimitReached (stateAfter now r n) now).2 := by
  induction n generalizing r with
  | zero =>
      show (runChecks now 1 r).2.2 = _
      rw [runChecks_state_succ]
      rfl
  | succ n ih =>
      show (runChecks now (n + 1 + 1) r).2.2 = _
      rw [runChecks_state_succ]
      have h1 : (runChecks now (n + 1) (IsLimitReached r now).2).2.2
          = stateAfter now (IsLimitReached r now).2 (n + 1) := rfl
      rw [h1, ih]
      have h2 : stateAfter now (IsLimitReached r now).2 n
          = (runChecks now (n + 1) r).2.2 := (runChecks_state_succ now n r).symm
      rw [h2]
      rfl

theorem chLen_stateAfter {r : RateLimit} (h0 : r.doneClosed = false)
    (h1 : (r.chLen : Int) ≤ r.limit) (now : Int) (n : Nat) :
    ((stateAfter now r n).chLen : Int) = min ((r.chLen : Int) + n) r.limit ∧
    (stateAfter now r n).doneClosed = false ∧
    (stateAfter now r n).limit = r.limit := by
  induction n with
  | zero =>
      refine ⟨?_, h0, rfl⟩
      simp only [stateAfter, runChecks, Nat.cast_zero, add_zero]
      omega
  | succ n ih =>
      obtain ⟨e1, e2, e3⟩ := ih
      rw [stateAfter_succ]
      set s := stateAfter now r n with hs
      obtain ⟨f1, f2, f3, f4⟩ := IsLimitReached_fields s now
      refine ⟨?_, by rw [f3, e2], by rw [f1, e3]⟩
      obtain ⟨-, g2, g3⟩ := IsLimitReached_chLen s now
      by_cases hlt : (s.chLen : Int) < s.limit
      · obtain ⟨hc, -⟩ := g2 e2 hlt
        rw [hc]
        push_cast
        rw [e1] at hlt ⊢
        rw [e3] at hlt
        push_cast at *
        omega
      · obtain ⟨hc, -⟩ := g3 e2 hlt
        rw [hc, e1]
        rw [e1, e3] at hlt
        push_cast at *
        omega

theorem runChecks_succ (now : Int) (n : Nat) (r : RateLimit) :
    runChecks now (n + 1) r =
      (if (IsLimitReached r now).1
       then ((runChecks now n (IsLimitReached r now).2).1,
             (runChecks now n (IsLimitReached r now).2).2.1 + 1,
             (runChecks now n (IsLimitReached r now).2).2.2)
       else ((runChecks now n (IsLimitReached r now).2).1 + 1,
             (runChecks now n (IsLimitReached r now).2).2.1,
             (runChecks now n (IsLimitReached r now).2).2.2)) := rfl

theorem runChecks_total (now : Int) (n : Nat) (r : RateLimit) :
    (runChecks now n r).1 + (runChecks now n r).2.1 = n := by
  induction n generalizing r with
  | zero => rfl
  | succ n ih =>
      rw [runChecks_succ]
      have := ih (IsLimitReached r now).2
      split <;> dsimp only <;> omega

theorem runChecks_props (now : Int) (n : Nat) {r : RateLimit}
    (h : r.doneClosed = false) (hle : (r.chLen : Int) ≤ r.limit) :
    ((runChecks now n r).2.2.chLen : Int) = r.chLen + (runChecks now n r).1 ∧
    ((runChecks now n r).2.2.chLen : Int) ≤ r.limit := by
  induction n generalizing r with
  | zero => exact ⟨by simp [runChecks], by simpa [runChecks] using hle⟩
  | succ n ih =>
      have hstep := IsLimitReached_chLen r now
      have hf := IsLimitReached_fields r now
      by_cases hlt : (r.chLen : Int) < r.limit
      · obtain ⟨hc, hres⟩ := hstep.2.1 h hlt
        have ihs := ih (r := (IsLimitReached r now).2)
          (by rw [hf.2.2.1]; exact h)
          (by rw [hc, hf.1]; push_cast; omega)
        rw [hf.1] at ihs
        rw [runChecks_succ, if_neg (by simp [hres])]
        dsimp only
        rw [hc] at ihs
        push_cast at ihs ⊢
        omega
      · obtain ⟨hc, hres⟩ := hstep.2.2 h hlt
        have ihs := ih (r := (IsLimitReached r now).2)
          (by rw [hf.2.2.1]; exact h)
          (by rw [hc, hf.1]; exact hle)
        rw [hf.1] at ihs
        rw [runChecks_succ, if_pos (by simp [hres])]
        dsimp only
        rw [hc] at ihs
        omega

theorem Inv_limit_nonneg {r : RateLimit} (h : Inv r) : 0 ≤ r.limit := by
  unfold Inv at h
  omega

theorem Inv_IsLimitReached {r : RateLimit} (h : Inv r) (now : Int) :
    Inv (IsLimitReached r now).2 := by
  unfold Inv IsLimitReached setLastCall at *
  dsimp only
  split
  · simpa using h
  · split
    · rename_i hlt
      simp only
      push_cast
      omega
    · simpa using h

theorem Inv_WaitSelect {r : RateLimit} {o : WaitOutcome} {r' : RateLimit}
    (h : Inv r) (hs : WaitSelect r o r') : Inv r' := by
  cases hs with
  | done _ => exact h
  | send hlt => unfold Inv at *; dsimp only; push_cast; omega
  | sleep _ _ => exact h

theorem Inv_WaitRun {r : RateLimit} {o : WaitOutcome} {r' : RateLimit}
    (h : Inv r) (hs : WaitRun r o r') : Inv r' := by
  induction hs with
  | ret hsel _ => exact Inv_WaitSelect h hsel
  | step _ _ ih => exact ih

theorem Inv_emptyChan {r : RateLimit} (h : Inv r) : Inv (emptyChan r) := by
  unfold Inv emptyChan at *
  split
  · exact h
  · dsimp only
    omega

theorem Inv_Stop {r r' : RateLimit} (h : Inv r) (hs : Stop r = .ok r') :
    Inv r' := by
  unfold Stop at hs
  split at hs
  · rename_i ht
    obtain ⟨tk, htk⟩ := Option.isSome_iff_exists.mp ht
    rw [htk] at hs
    have hs' : (Except.ok (emptyChan { r with t := some { tk with running := false } })
        : Except GoFault RateLimit) = .ok r' := hs
    cases hs'
    exact Inv_emptyChan h
  · cases hs
    exact Inv_emptyChan h

theorem Inv_handleStopTicker {r : RateLimit} (h : Inv r) :
    Inv (handleStopTicker r) := by
  unfold Inv handleStopTicker at *
  split <;> simpa using h

theorem Inv_CancelRun {r r' : RateLimit} (h : Inv r) (hc : CancelRun r r') :
    Inv r' := by
  cases hc with
  | doneFirst =>
      exact Inv_emptyChan (Inv_handleStopTicker h)
  | doneBetween =>
      exact Inv_emptyChan (Inv_handleStopTicker h)
  | doneLast =>
      exact Inv_emptyChan (Inv_handleStopTicker h)

theorem handleStopTicker_fields (r : RateLimit) :
    (handleStopTicker r).chLen = r.chLen ∧
    (handleStopTicker r).doneClosed = r.doneClosed ∧
    (handleStopTicker r).limit = r.limit := by
  unfold handleStopTicker
  split <;> simp

/-! The claims. -/

/-- C1: starting from a freshly created limiter (empty occupancy, no
cancellation), each of the first `capacity` immediate calls to
`IsLimitReached` returns `false` and consumes one slot, and the
`(capacity+1)`-th immediate call returns `true` and consumes no slot. -/
theorem fresh_limiter_admits_exactly_capacity
    (d c t0 now : Int) (r : RateLimit) (h : New d c t0 = .ok r) :
    (∀ i : Nat, (i : Int) < c →
        (IsLimitReached (stateAfter now r i) now).1 = false ∧
        (stateAfter now r (i + 1)).chLen = (stateAfter now r i).chLen + 1) ∧
    (IsLimitReached (stateAfter now r c.toNat) now).1 = true ∧
    (stateAfter now r (c.toNat + 1)).chLen = (stateAfter now r c.toNat).chLen := by
  obtain ⟨hd, hlim, hch, hdone, ht, hcpos, hdpos⟩ := New_ok_fields h
  have hle : (r.chLen : Int) ≤ r.limit := by rw [hch, hlim]; push_cast; omega
  refine ⟨fun i hi => ?_, ?_, ?_⟩
  · obtain ⟨e1, e2, e3⟩ := chLen_stateAfter hdone hle now i
    have hlt : ((stateAfter now r i).chLen : Int) < (stateAfter now r i).limit := by
      rw [e3, hlim]
      rw [hch, hlim] at e1
      push_cast at e1
      omega
    obtain ⟨hc1, hc2⟩ := (IsLimitReached_chLen (stateAfter now r i) now).2.1 e2 hlt
    refine ⟨hc2, ?_⟩
    rw [stateAfter_succ]
    exact hc1
  · obtain ⟨e1, e2, e3⟩ := chLen_stateAfter hdone hle now c.toNat
    have hnlt : ¬ ((stateAfter now r c.toNat).chLen : Int) <
        (stateAfter now r c.toNat).limit := by
      rw [e3, hlim]
      rw [hch, hlim] at e1
      push_cast at e1
      omega
    exact ((IsLimitReached_chLen (stateAfter now r c.toNat) now).2.2 e2 hnlt).2
  · obtain ⟨e1, e2, e3⟩ := chLen_stateAfter hdone hle now c.toNat
    have hnlt : ¬ ((stateAfter now r c.toNat).chLen : Int) <
        (stateAfter now r c.toNat).limit := by
      rw [e3, hlim]
      rw [hch, hlim] at e1
      push_cast at e1
      omega
    rw [stateAfter_succ]
    exact ((IsLimitReached_chLen (stateAfter now r c.toNat) now).2.2 e2 hnlt).1

theorem fresh_limiter_admits_exactly_capacity_witness :
    (IsLimitReached (stateAfter 5 { d := 10, limit := 2, chLen := 0, doneClosed := false, t := none, lastCall := 0 } 0) 5).1 = false ∧
    (IsLimitReached (stateAfter 5 { d := 10, limit := 2, chLen := 0, doneClosed := false, t := none, lastCall := 0 } 2) 5).1 = true := by
  have h := fresh_limiter_admits_exactly_capacity 10 2 0 5
    { d := 10, limit := 2, chLen := 0, doneClosed := false, t := none, lastCall := 0 } rfl
  exact ⟨(h.1 0 (by decide)).1, h.2.1⟩

/-- C2: occupancy stays between 0 and capacity; construction establishes the
bound and every operation (non-blocking check, blocking wait, drain, `Stop`,
cancellation teardown) preserves it; of `n` non-blocking attempts with no reset
and no cancellation in between, admitted plus denied equals `n` and at most
`capacity` are admitted. -/
theorem occupancy_bounded_and_admissions_counted
    (d c t0 now : Int) (n : Nat) (r : RateLimit) :
    (∀ r0, New d c t0 = .ok r0 → Inv r0) ∧
    (Inv r →
      (∀ t1, Inv (IsLimitReached r t1).2) ∧
      (∀ o r', WaitRun r o r' → Inv r') ∧
      Inv (emptyChan r) ∧
      (∀ r', Stop r = .ok r' → Inv r') ∧
      (∀ r', CancelRun r r' → Inv r')) ∧
    ((runChecks now n r).1 + (runChecks now n r).2.1 = n) ∧
    (Inv r → r.doneClosed = false → ((runChecks now n r).1 : Int) ≤ r.limit) := by
  refine ⟨fun r0 h0 => ?_, fun hi => ?_, runChecks_total now n r, fun hi hdone => ?_⟩
  · obtain ⟨-, hlim, hch, -, -, hcpos, -⟩ := New_ok_fields h0
    unfold Inv
    rw [hch, hlim]
    push_cast
    omega
  · exact ⟨fun t1 => Inv_IsLimitReached hi t1,
      fun o r' hr => Inv_WaitRun hi hr,
      Inv_emptyChan hi,
      fun r' hs => Inv_Stop hi hs,
      fun r' hc => Inv_CancelRun hi hc⟩
  · obtain ⟨e1, e2⟩ := runChecks_props now n hdone hi
    unfold Inv at hi
    omega

theorem occupancy_bounded_and_admissions_counted_witness :
    ((runChecks 0 7 { d := 1, limit := 3, chLen := 0, doneClosed := false, t := none, lastCall := 0 }).1 : Int) ≤ 3 ∧
    (runChecks 0 7 { d := 1, limit := 3, chLen := 0, doneClosed := false, t := none, lastCall := 0 }).1 +
      (runChecks 0 7 { d := 1, limit := 3, chLen := 0, doneClosed := false, t := none, lastCall := 0 }).2.1 = 7 := by
  have h := occupancy_bounded_and_admissions_counted 1 3 0 0 7
    { d := 1, limit := 3, chLen := 0, doneClosed := false, t := none, lastCall := 0 }
  exact ⟨h.2.2.2 (by decide) rfl, h.2.2.1⟩

/-- C3: `New` fails with `ErrInvalidParams` and returns no limiter exactly
when the duration or the capacity is non-positive; for every positive pair it
returns a limiter (empty, running) with no error; `ErrInvalidParams` is the
only error value any operation can produce. -/
theorem create_validation (d c t0 : Int) :
    (New d c t0 = .error ErrInvalidParams ↔ d ≤ 0 ∨ c ≤ 0) ∧
    (0 < d → 0 < c → ∃ r, New d c t0 = .ok r ∧ r.d = d ∧ r.limit = c ∧
      r.chLen = 0 ∧ r.doneClosed = false) ∧
    (∀ e, New d c t0 = .error e → e = ErrInvalidParams) := by
  unfold New
  by_cases hv : c ≤ 0 ∨ d ≤ 0
  · rw [if_pos hv]
    refine ⟨⟨fun _ => ?_, fun _ => rfl⟩, fun hd hc => ?_, ?_⟩
    · omega
    · omega
    · intro e he
      cases he
      rfl
  · rw [if_neg hv]
    push_neg at hv
    refine ⟨⟨fun he => ?_, fun hor => ?_⟩, ?_, ?_⟩
    · cases he
    · omega
    · intro hd hc
      exact ⟨_, rfl, rfl, rfl, rfl, rfl⟩
    · intro e he
      cases he

theorem create_validation_witness :
    New 0 5 0 = .error ErrInvalidParams ∧
    ∃ r, New 2 3 0 = .ok r ∧ r.d = 2 ∧ r.limit = 3 ∧ r.chLen = 0 ∧
      r.doneClosed = false := by
  refine ⟨(create_validation 0 5 0).1.mpr (Or.inl (by norm_num)), ?_⟩
  exact (create_validation 2 3 0).2.1 (by norm_num) (by norm_num)

/-- C4 counterexample: at a state where the cancellation signal has fired and a
slot is free, both the `<-r.done` case and the `r.ch <- struct{}{}` case of the
`select` are ready, so Go may take the send branch: the call can return having
consumed one slot, contradicting "returns immediately without consuming a
slot" after cancellation. -/
theorem wait_after_cancel_may_consume_slot :
    ({ d := 1, limit := 1, chLen := 0, doneClosed := true, t := none, lastCall := 0 } : RateLimit).doneClosed = true ∧
    WaitRun { d := 1, limit := 1, chLen := 0, doneClosed := true, t := none, lastCall := 0 }
      .acquired
      { d := 1, limit := 1, chLen := 1, doneClosed := true, t := none, lastCall := 0 } := by
  exact ⟨rfl, WaitRun.ret (WaitSelect.send (by decide)) (by decide)⟩

/-- C4 (amended): every return of the wait loop through the reservation branch
consumes exactly one slot and every return through the cancelled branch
consumes none; once the cancellation signal has fired the loop never sleeps —
it returns on its first iteration through one of the two ready branches. -/
theorem wait_slot_consumption (r : RateLimit) (o : WaitOutcome) (r' : RateLimit)
    (h : WaitRun r o r') :
    (o = .acquired → r'.chLen = r.chLen + 1) ∧
    (o = .returnedDone → r'.chLen = r.chLen) ∧
    (r.doneClosed = true → WaitSelect r o r') := by
  induction h with
  | ret hsel ho =>
      cases hsel with
      | done hd =>
          exact ⟨fun he => absurd he (by decide), fun _ => rfl,
            fun _ => WaitSelect.done hd⟩
      | send hlt =>
          exact ⟨fun _ => rfl, fun he => absurd he (by decide),
            fun _ => WaitSelect.send hlt⟩
      | sleep h1 h2 => exact absurd rfl ho
  | step hsl rest ih =>
      refine ⟨ih.1, ih.2.1, fun hd => ?_⟩
      cases hsl with
      | sleep h1 h2 => rw [hd] at h1; exact Bool.noConfusion h1

theorem wait_slot_consumption_witness :
    ({ d := 1, limit := 2, chLen := 1, doneClosed := false, t := none, lastCall := 0 } : RateLimit).chLen =
      ({ d := 1, limit := 2, chLen := 0, doneClosed := false, t := none, lastCall := 0 } : RateLimit).chLen + 1 := by
  have h := wait_slot_consumption
    { d := 1, limit := 2, chLen := 0, doneClosed := false, t := none, lastCall := 0 }
    .acquired
    { d := 1, limit := 2, chLen := 1, doneClosed := false, t := none, lastCall := 0 }
    (WaitRun.ret (WaitSelect.send (by decide)) (by decide))
  exact h.1 rfl

/-- C5: once the cancellation signal has fired, every call to `IsLimitReached`
returns `false` and leaves occupancy untouched (the first `select` takes the
closed-`done` case deterministically, before any reservation attempt),
regardless of the prior occupancy level. -/
theorem cancelled_check_fails_open (r : RateLimit) (now : Int)
    (h : r.doneClosed = true) :
    (IsLimitReached r now).1 = false ∧
    (IsLimitReached r now).2.chLen = r.chLen := by
  obtain ⟨h1, h2⟩ := (IsLimitReached_chLen r now).1 h
  exact ⟨h2, h1⟩

theorem cancelled_check_fails_open_witness :
    (IsLimitReached { d := 1, limit := 1, chLen := 1, doneClosed := true, t := none, lastCall := 0 } 9).1 = false ∧
    (IsLimitReached { d := 1, limit := 1, chLen := 1, doneClosed := true, t := none, lastCall := 0 } 9).2.chLen = 1 := by
  exact cancelled_check_fails_open
    { d := 1, limit := 1, chLen := 1, doneClosed := true, t := none, lastCall := 0 } 9 rfl

/-- C6: the background loop creates its ticker with period `windowDuration`
(`time.NewTicker(r.d)`); on a tick while cancellation has not fired, the drain
step empties all occupied slots (a full reset, every other field unchanged);
if the cancellation signal has already fired, the drain step is a no-op. -/
theorem background_tick_full_reset (r : RateLimit) :
    (backgroundInit r).t = some { period := r.d, running := true } ∧
    (r.doneClosed = false → backgroundTick r = { r with chLen := 0 }) ∧
    (r.doneClosed = true → backgroundTick r = r) := by
  refine ⟨rfl, fun h => ?_, fun h => ?_⟩
  · simp [backgroundTick, emptyChan, h]
  · simp [backgroundTick, emptyChan, h]

theorem background_tick_full_reset_witness :
    backgroundTick { d := 7, limit := 3, chLen := 3, doneClosed := false, t := none, lastCall := 0 } =
      { d := 7, limit := 3, chLen := 0, doneClosed := false, t := none, lastCall := 0 } ∧
    backgroundTick { d := 7, limit := 3, chLen := 3, doneClosed := true, t := none, lastCall := 0 } =
      { d := 7, limit := 3, chLen := 3, doneClosed := true, t := none, lastCall := 0 } := by
  constructor
  · exact (background_tick_full_reset
      { d := 7, limit := 3, chLen := 3, doneClosed := false, t := none, lastCall := 0 }).2.1 rfl
  · exact (background_tick_full_reset
      { d := 7, limit := 3, chLen := 3, doneClosed := true, t := none, lastCall := 0 }).2.2 rfl

/-- C7 counterexample: with one slot occupied when cancellation fires, the
serialization in which `close(r.done)` runs before the watcher's `emptyChan`
leaves occupancy at 1, not 0 (`emptyChan` returns early once `done` is
closed); moreover after cancellation the blocking path may still consume a
slot, so occupancy can also be refilled. -/
theorem cancel_drain_not_guaranteed :
    (∃ r', CancelRun { d := 5, limit := 1, chLen := 1, doneClosed := false, t := some { period := 5, running := true }, lastCall := 0 } r' ∧ r'.chLen = 1) ∧
    (∃ r'', WaitRun { d := 5, limit := 1, chLen := 0, doneClosed := true, t := none, lastCall := 0 } .acquired r'' ∧ r''.chLen = 1) := by
  constructor
  · exact ⟨_, CancelRun.doneFirst _, rfl⟩
  · exact ⟨_, WaitRun.ret (WaitSelect.send (by decide)) (by decide), rfl⟩

/-- C7 (amended): once the cancellation signal fires, every serialization of
the two released background tasks ends with `done` closed, and occupancy is
either drained to 0 or left at its prior value: it reaches 0 exactly in the
serialization where the watcher's drain runs before `close(r.done)`, and is
untouched in the serializations where `close(r.done)` comes first; after
`done` is closed, the non-blocking check and the drain never change occupancy
(the blocking path may still consume a free slot). -/
theorem cancel_watcher_behavior (r : RateLimit) (h : r.doneClosed = false) :
    (∀ r', CancelRun r r' → r'.doneClosed = true ∧
        (r'.chLen = 0 ∨ r'.chLen = r.chLen)) ∧
    (closeDone (handleCtxDrain r)).chLen = 0 ∧
    (handleCtxDrain (closeDone r)).chLen = r.chLen ∧
    (emptyChan (closeDone (handleStopTicker r))).chLen = r.chLen ∧
    (∀ s : RateLimit, ∀ now : Int, s.doneClosed = true →
        (IsLimitReached s now).2.chLen = s.chLen ∧ emptyChan s = s) := by
  obtain ⟨hs1, hs2, -⟩ := handleStopTicker_fields r
  have hdrain : (handleCtxDrain r).chLen = 0 := by
    unfold handleCtxDrain emptyChan
    rw [if_neg (by rw [hs2, h]; exact Bool.false_ne_true)]
  have hnodrain : (handleCtxDrain (closeDone r)).chLen = r.chLen := by
    unfold handleCtxDrain emptyChan closeDone
    have h2 : (handleStopTicker { r with doneClosed := true }).doneClosed = true :=
      (handleStopTicker_fields { r with doneClosed := true }).2.1
    rw [if_pos h2]
    exact (handleStopTicker_fields { r with doneClosed := true }).1
  have hmid : (emptyChan (closeDone (handleStopTicker r))).chLen = r.chLen := by
    unfold emptyChan closeDone
    rw [if_pos rfl]
    exact hs1
  refine ⟨fun r' hc => ?_, hdrain, hnodrain, hmid, fun s now hsd => ?_⟩
  · cases hc with
    | doneFirst =>
        refine ⟨?_, Or.inr hnodrain⟩
        unfold handleCtxDrain emptyChan
        have h2 : (handleStopTicker (closeDone r)).doneClosed = true :=
          (handleStopTicker_fields (closeDone r)).2.1
        rw [if_pos h2]
        exact h2
    | doneBetween =>
        refine ⟨?_, Or.inr hmid⟩
        unfold emptyChan closeDone
        rw [if_pos rfl]
    | doneLast => exact ⟨rfl, Or.inl hdrain⟩
  · refine ⟨((IsLimitReached_chLen s now).1 hsd).1, ?_⟩
    unfold emptyChan
    rw [if_pos hsd]

theorem cancel_watcher_behavior_witness :
    (closeDone (handleCtxDrain { d := 5, limit := 2, chLen := 2, doneClosed := false, t := some { period := 5, running := true }, lastCall := 0 })).chLen = 0 ∧
    (handleCtxDrain (closeDone { d := 5, limit := 2, chLen := 2, doneClosed := false, t := some { period := 5, running := true }, lastCall := 0 })).chLen = 2 := by
  have h := cancel_watcher_behavior
    { d := 5, limit := 2, chLen := 2, doneClosed := false, t := some { period := 5, running := true }, lastCall := 0 } rfl
  exact ⟨h.2.1, h.2.2.1⟩

/-- C8: the code evaluated at the failing input — `Stop` on a freshly created
limiter. `Stop` only stops the ticker, drains the channel and sleeps; it never
invokes `cancelFunc` and never closes `done`, so after `Stop` returns the
cancellation signal has not fired and the cancelled branch of the blocking
loop's `select` is still unreachable: no terminal state is entered. -/
theorem stop_does_not_fire_cancellation :
    ∃ r0 r1, New 100 5 0 = .ok r0 ∧ Stop r0 = .ok r1 ∧
      r1.doneClosed = false ∧ ∀ r2, ¬ WaitSelect r1 .returnedDone r2 := by
  refine ⟨_, _, rfl, rfl, rfl, ?_⟩
  intro r2 hsel
  cases hsel with
  | done hd => exact absurd hd (by decide)

/-- C9: `Stop` never panics: in every state — owning context cancelled or
not, channel full or empty, and in particular with the ticker pointer still
`nil` because the background loop has not initialized it — the `r.t != nil`
guard keeps the nil-dereference branch unreachable and `Stop` returns
normally. -/
theorem stop_never_faults (r : RateLimit) : ∃ r', Stop r = .ok r' := by
  unfold Stop
  cases r.t with
  | none => exact ⟨_, rfl⟩
  | some tk => exact ⟨_, rfl⟩

/-- C10: in every state where the cancellation signal has not fired and
occupancy is strictly below capacity, the wait loop's only possible behavior
is to consume one slot and return on the first iteration: the sleeping branch
is not even enabled. -/
theorem wait_succeeds_first_attempt (r : RateLimit)
    (h1 : r.doneClosed = false) (h2 : (r.chLen : Int) < r.limit) :
    WaitRun r .acquired { r with chLen := r.chLen + 1 } ∧
    (∀ o r', WaitRun r o r' →
      o = .acquired ∧ r' = { r with chLen := r.chLen + 1 }) ∧
    (∀ r', ¬ WaitSelect r .slept r') := by
  refine ⟨WaitRun.ret (WaitSelect.send h2) (by decide), fun o r' hr => ?_,
    fun r' hs => ?_⟩
  · cases hr with
    | ret hsel ho =>
        cases hsel with
        | done hd => rw [h1] at hd; exact Bool.noConfusion hd
        | send _ => exact ⟨rfl, rfl⟩
        | sleep hs1 hs2 => exact absurd h2 hs2
    | step hsl rest =>
        cases hsl with
        | sleep hs1 hs2 => exact absurd h2 hs2
  · cases hs with
    | sleep hs1 hs2 => exact absurd h2 hs2

theorem wait_succeeds_first_attempt_witness :
    WaitRun { d := 1, limit := 3, chLen := 2, doneClosed := false, t := none, lastCall := 0 }
      .acquired
      { d := 1, limit := 3, chLen := 3, doneClosed := false, t := none, lastCall := 0 } := by
  exact (wait_succeeds_first_attempt
    { d := 1, limit := 3, chLen := 2, doneClosed := false, t := none, lastCall := 0 }
    rfl (by decide)).1

end Ratelimit
